import Mathlib

/-!
Shallow embedding of the `isn` package-manager front-end
(repository Kazuki-0731/Kimigayo, directory `src/pkg/isn/src`), together
with spec-modelled definitions for the parts of the designed core that the
repository does not implement (dependency resolver, transactional executor).

Source files embedded: `error.rs`, `package.rs`, `commands.rs`, `main.rs`,
`database.rs`.  External effects (the `apk` backend, SQLite, stdout,
`process::exit`) are made explicit: commands are pure functions of an
environment recording the effective uid and the behaviour of the backend,
and return the outcome (returned `Result`, or process exit) together with
the trace of backend invocations they attempted.
-/

namespace Isn

/-! ## `error.rs` : the `IsnError` enum

Each variant carries the payload the source declares; `rusqlite::Error`,
`std::io::Error` payloads are modelled by their message string. -/

/-- The `IsnError` enum of `error.rs`, one constructor per source variant,
in source order. -/
inductive IsnError where
  | packageNotFound (msg : String)
  | packageAlreadyInstalled (msg : String)
  | packageNotInstalled (msg : String)
  | dependencyError (msg : String)
  | databaseError (msg : String)
  | ioError (msg : String)
  | networkError (msg : String)
  | verificationError (msg : String)
  | configError (msg : String)
  | other (msg : String)
deriving DecidableEq, Repr

/-- The constructor tags of `IsnError`, used to talk about which variant a
value was built with (what a Rust `match` arm can discriminate). -/
inductive IsnErrorTag where
  | packageNotFound
  | packageAlreadyInstalled
  | packageNotInstalled
  | dependencyError
  | databaseError
  | ioError
  | networkError
  | verificationError
  | configError
  | other
deriving DecidableEq, Repr

/-- Constructor tag of an `IsnError` value. -/
def IsnError.tag : IsnError → IsnErrorTag
  | .packageNotFound _ => .packageNotFound
  | .packageAlreadyInstalled _ => .packageAlreadyInstalled
  | .packageNotInstalled _ => .packageNotInstalled
  | .dependencyError _ => .dependencyError
  | .databaseError _ => .databaseError
  | .ioError _ => .ioError
  | .networkError _ => .networkError
  | .verificationError _ => .verificationError
  | .configError _ => .configError
  | .other _ => .other

/-- Modelled from the spec: the nine members of the error taxonomy of
spec section 7 ("Taxonomy: NotFound, Conflict/AlreadyInstalled,
NotInstalled, UnsatisfiableConstraints, CyclicDependency,
VerificationFailure, FetchFailure, StoreIoFailure, TransactionFailed"). -/
inductive SpecErrorKind where
  | notFound
  | conflictAlreadyInstalled
  | notInstalled
  | unsatisfiableConstraints
  | cyclicDependency
  | verificationFailure
  | fetchFailure
  | storeIoFailure
  | transactionFailed
deriving DecidableEq, Repr

/-- Modelled from the spec and from the variant meanings documented by the
source's `thiserror` message strings: the `IsnError` variant through which
the code represents each member of the spec's error taxonomy.
`NotFound`, `Conflict/AlreadyInstalled`, `NotInstalled`,
`VerificationFailure` have same-named variants; `FetchFailure` maps to
`NetworkError` ("Network error"), `StoreIoFailure` to `DatabaseError`
("Database error"); both dependency-resolution failures
(`UnsatisfiableConstraints` and `CyclicDependency`) can only go through
the single dependency-related variant `DependencyError`
("Dependency error"); `TransactionFailed` has no dedicated variant and can
only be conveyed by the catch-all `Other`. -/
def representTaxonomy : SpecErrorKind → IsnErrorTag
  | .notFound => .packageNotFound
  | .conflictAlreadyInstalled => .packageAlreadyInstalled
  | .notInstalled => .packageNotInstalled
  | .unsatisfiableConstraints => .dependencyError
  | .cyclicDependency => .dependencyError
  | .verificationFailure => .verificationError
  | .fetchFailure => .networkError
  | .storeIoFailure => .databaseError
  | .transactionFailed => .other

/-! ## `package.rs` : `Package` and `InstalledPackage` -/

/-- The `Package` struct of `package.rs`.  Note: `dependencies` is
`Vec<String>` in the source — a list of bare package names. -/
structure Package where
  name : String
  version : String
  description : String
  dependencies : List String
  size : Nat
  checksum : String
deriving DecidableEq, Repr

/-- The `InstalledPackage` struct of `package.rs`. -/
structure InstalledPackage where
  name : String
  version : String
  installed_at : Int
  explicitFlag : Bool
deriving DecidableEq, Repr

/-- Modelled from the spec: a version-range predicate over versions
(spec section 3, "DependencyConstraint: (package name, version range
predicate)"), given as optional lower and upper bounds on version
strings. -/
structure VersionRange where
  lo : Option String
  hi : Option String
deriving DecidableEq, Repr

/-- Modelled from the spec: a dependency constraint, pairing the
depended-on package name with a version range (spec section 3:
"list of dependency constraints (name + version range)"). -/
structure DependencyConstraint where
  name : String
  range : VersionRange
deriving DecidableEq, Repr

/-- What the source's `Package.dependencies` entry (`String`) can record
of a spec-level dependency constraint: only the name. -/
def depToSource (c : DependencyConstraint) : String :=
  c.name

/-- Build a source `Package` value from spec-level fields, flattening each
dependency constraint to what the source type stores. -/
def packageOfSpecDeps (name version description : String)
    (deps : List DependencyConstraint) (size : Nat) (checksum : String) :
    Package :=
  { name := name, version := version, description := description,
    dependencies := deps.map depToSource, size := size,
    checksum := checksum }

/-! ## `commands.rs` : the CLI operations

Every command spawns the `apk` binary via `std::process::Command`.  The
environment records the effective uid (`libc::geteuid()`) and the backend:
a function from the argument list passed to `apk` to either a spawn
failure (`std::io::Error`, modelled by its message — surfaced by the `?`
on `cmd.output()`) or the captured output (`status.success()`, stdout
lines, stderr).  An operation's result is its outcome — `Ok(())`,
`Err(IsnError)`, or a `std::process::exit(code)` — together with the
trace of backend invocations attempted, in order. -/

/-- The captured output of a finished backend command
(`std::process::Output`): exit-status success flag, stdout (as lines, the
way `commands.rs` consumes it), stderr. -/
structure CmdOutput where
  success : Bool
  stdoutLines : List String
  stderr : String
deriving DecidableEq, Repr

/-- The environment a command runs in: effective uid and backend
behaviour.  `run args` is what `Command::new("apk")` with `args` does:
`Except.error msg` models `cmd.output()` failing to spawn (an IO error),
`Except.ok out` a finished process. -/
structure Env where
  euid : Nat
  run : List String → Except String CmdOutput

/-- How a command ends: return `Ok(())`, return `Err(e)`, or terminate
the whole process via `std::process::exit(code)`. -/
inductive Outcome where
  | ok
  | err (e : IsnError)
  | exited (code : Nat)
deriving DecidableEq, Repr

/-- Result of running one command: its outcome and the argument lists of
the backend (`apk`) invocations it attempted, in order. -/
structure RunResult where
  outcome : Outcome
  cmds : List (List String)
deriving DecidableEq, Repr

namespace Commands

/-- `commands.rs` `is_root`: `libc::geteuid() == 0`. -/
def is_root (env : Env) : Bool :=
  env.euid == 0

/-- `commands.rs` `install`: root check, then `apk add [--no-cache] pkg`;
backend failure exits the process with code 1. -/
def install (env : Env) (package : String) (yes : Bool) : RunResult :=
  if ¬ is_root env then
    ⟨.exited 1, []⟩
  else
    let args := ["add"] ++ (if yes then ["--no-cache"] else []) ++ [package]
    match env.run args with
    | .error e => ⟨.err (.ioError e), [args]⟩
    | .ok out => if out.success then ⟨.ok, [args]⟩ else ⟨.exited 1, [args]⟩

/-- `commands.rs` `remove`: root check, then `apk del pkg`. -/
def remove (env : Env) (package : String) (_yes : Bool) : RunResult :=
  if ¬ is_root env then
    ⟨.exited 1, []⟩
  else
    let args := ["del", package]
    match env.run args with
    | .error e => ⟨.err (.ioError e), [args]⟩
    | .ok out => if out.success then ⟨.ok, [args]⟩ else ⟨.exited 1, [args]⟩

/-- `commands.rs` `update`: root check, then `apk update`. -/
def update (env : Env) : RunResult :=
  if ¬ is_root env then
    ⟨.exited 1, []⟩
  else
    let args := ["update"]
    match env.run args with
    | .error e => ⟨.err (.ioError e), [args]⟩
    | .ok out => if out.success then ⟨.ok, [args]⟩ else ⟨.exited 1, [args]⟩

/-- `commands.rs` `upgrade`: root check, then `apk upgrade [--no-cache]`. -/
def upgrade (env : Env) (yes : Bool) : RunResult :=
  if ¬ is_root env then
    ⟨.exited 1, []⟩
  else
    let args := ["upgrade"] ++ (if yes then ["--no-cache"] else [])
    match env.run args with
    | .error e => ⟨.err (.ioError e), [args]⟩
    | .ok out => if out.success then ⟨.ok, [args]⟩ else ⟨.exited 1, [args]⟩

/-- `commands.rs` `search`: no root check; `apk search query`. -/
def search (env : Env) (query : String) : RunResult :=
  let args := ["search", query]
  match env.run args with
  | .error e => ⟨.err (.ioError e), [args]⟩
  | .ok out => if out.success then ⟨.ok, [args]⟩ else ⟨.exited 1, [args]⟩

/-- `commands.rs` `info`: no root check; `apk info pkg`. -/
def info (env : Env) (package : String) : RunResult :=
  let args := ["info", package]
  match env.run args with
  | .error e => ⟨.err (.ioError e), [args]⟩
  | .ok out => if out.success then ⟨.ok, [args]⟩ else ⟨.exited 1, [args]⟩

/-- `commands.rs` `list`: no root check; runs `apk list --installed`
whatever the value of `explicitFlag` (the flag only changes the header
message, see `listHeader`). -/
def list (env : Env) (_explicitFlag : Bool) : RunResult :=
  let args := ["list", "--installed"]
  match env.run args with
  | .error e => ⟨.err (.ioError e), [args]⟩
  | .ok out => if out.success then ⟨.ok, [args]⟩ else ⟨.exited 1, [args]⟩

/-- The header `list` prints: the only place its flag is consulted. -/
def listHeader (explicitFlag : Bool) : String :=
  "Listing " ++
    (if explicitFlag then "explicitly installed" else "all installed") ++
    " packages..."

/-- The package lines `list` prints: on backend success it prints every
line of the backend's stdout, independently of the flag. -/
def listPassthrough (env : Env) (_explicitFlag : Bool) : List String :=
  match env.run ["list", "--installed"] with
  | .error _ => []
  | .ok out => if out.success then out.stdoutLines else []

/-- `commands.rs` `verify`: no root check; `apk verify pkg`. -/
def verify (env : Env) (package : String) : RunResult :=
  let args := ["verify", package]
  match env.run args with
  | .error e => ⟨.err (.ioError e), [args]⟩
  | .ok out => if out.success then ⟨.ok, [args]⟩ else ⟨.exited 1, [args]⟩

/-- `commands.rs` `security_update`: root check, then `apk update`
(output ignored via `let _ = ...?`, so only a spawn failure matters),
then `apk upgrade [--no-cache]`. -/
def security_update (env : Env) (yes : Bool) : RunResult :=
  if ¬ is_root env then
    ⟨.exited 1, []⟩
  else
    match env.run ["update"] with
    | .error e => ⟨.err (.ioError e), [["update"]]⟩
    | .ok _ =>
      let args := ["upgrade"] ++ (if yes then ["--no-cache"] else [])
      match env.run args with
      | .error e => ⟨.err (.ioError e), [["update"], args]⟩
      | .ok out =>
        if out.success then ⟨.ok, [["update"], args]⟩
        else ⟨.exited 1, [["update"], args]⟩

end Commands

/-- The operations `main.rs` dispatches to, with their CLI arguments. -/
inductive Op where
  | install (package : String) (yes : Bool)
  | remove (package : String) (yes : Bool)
  | update
  | upgrade (yes : Bool)
  | search (query : String)
  | info (package : String)
  | list (explicitFlag : Bool)
  | verify (package : String)
  | securityUpdate (yes : Bool)
deriving DecidableEq, Repr

/-- The dispatch of `main.rs`: each CLI subcommand to its command. -/
def runOp (env : Env) : Op → RunResult
  | .install p y => Commands.install env p y
  | .remove p y => Commands.remove env p y
  | .update => Commands.update env
  | .upgrade y => Commands.upgrade env y
  | .search q => Commands.search env q
  | .info p => Commands.info env p
  | .list e => Commands.list env e
  | .verify p => Commands.verify env p
  | .securityUpdate y => Commands.security_update env y

/-- The mutating operations: those whose command performs the inline
`is_root` check before touching the backend. -/
def Op.isMutating : Op → Bool
  | .install _ _ => true
  | .remove _ _ => true
  | .update => true
  | .upgrade _ => true
  | .securityUpdate _ => true
  | .search _ => false
  | .info _ => false
  | .list _ => false
  | .verify _ => false

/-- A concrete non-root environment (euid 1000) whose backend always
succeeds with empty output. -/
def envNonRoot : Env :=
  { euid := 1000, run := fun _ => .ok ⟨true, [], ""⟩ }

/-- An environment whose backend reports exactly one installed package,
one that was pulled in as a dependency rather than explicitly
requested. -/
def envDepInstalled : Env :=
  { euid := 0,
    run := fun args =>
      if args = ["list", "--installed"] then
        .ok ⟨true, ["bash-5.2.26-r0 x86_64 [installed]"], ""⟩
      else .error "unexpected command" }

/-! ## `database.rs` : the SQLite schema

`Database::init_schema` runs three DDL statements (two
`CREATE TABLE IF NOT EXISTS`, one `CREATE INDEX IF NOT EXISTS`).  The
database is modelled relationally: a state holds the created table
definitions with their rows and the created indexes; the DDL statements
are data transliterated from the SQL text, and row insertion enforces the
declared NOT NULL and UNIQUE constraints the way SQLite does (NULLs are
exempt from UNIQUE). -/

/-- A SQLite value: text, integer, or NULL. -/
inductive SqlValue where
  | s (v : String)
  | i (v : Int)
  | null
deriving DecidableEq, Repr

/-- A column declaration: name and its constraints. -/
structure ColumnDef where
  name : String
  primaryKey : Bool
  notNull : Bool
  unique : Bool
deriving DecidableEq, Repr

/-- A FOREIGN KEY clause: column, referenced table, referenced column. -/
structure ForeignKeyDef where
  column : String
  refTable : String
  refColumn : String
deriving DecidableEq, Repr

/-- A table declaration. -/
structure TableDef where
  name : String
  columns : List ColumnDef
  foreignKeys : List ForeignKeyDef
deriving DecidableEq, Repr

/-- An index declaration. -/
structure IndexDef where
  name : String
  table : String
  column : String
deriving DecidableEq, Repr

/-- A row: one value per column, in column order. -/
abbrev Row := List SqlValue

/-- The database state: created tables with their rows, and indexes. -/
structure DbState where
  tables : List (TableDef × List Row)
  indexes : List IndexDef
deriving DecidableEq, Repr

/-- The `packages` table of `init_schema`: `id INTEGER PRIMARY KEY`,
`name TEXT NOT NULL UNIQUE`, `version TEXT NOT NULL`, `description TEXT`,
`installed_at INTEGER`. -/
def packagesTable : TableDef :=
  { name := "packages",
    columns :=
      [⟨"id", true, false, false⟩,
       ⟨"name", false, true, true⟩,
       ⟨"version", false, true, false⟩,
       ⟨"description", false, false, false⟩,
       ⟨"installed_at", false, false, false⟩],
    foreignKeys := [] }

/-- The `dependencies` table of `init_schema`: `package_id INTEGER`,
`depends_on TEXT`, `FOREIGN KEY (package_id) REFERENCES packages(id)`. -/
def dependenciesTable : TableDef :=
  { name := "dependencies",
    columns :=
      [⟨"package_id", false, false, false⟩,
       ⟨"depends_on", false, false, false⟩],
    foreignKeys := [⟨"package_id", "packages", "id"⟩] }

/-- The `idx_package_name` index of `init_schema` on `packages(name)`. -/
def idxPackageName : IndexDef :=
  ⟨"idx_package_name", "packages", "name"⟩

/-- Names of the tables present in a state. -/
def tableNames (db : DbState) : List String :=
  db.tables.map (fun te => te.1.name)

/-- `CREATE TABLE IF NOT EXISTS`: a no-op when a table of that name
exists, otherwise adds the table with no rows. -/
def createTableIfNotExists (db : DbState) (t : TableDef) : DbState :=
  if t.name ∈ tableNames db then db
  else { db with tables := db.tables ++ [(t, [])] }

/-- Names of the indexes present in a state. -/
def indexNames (db : DbState) : List String :=
  db.indexes.map IndexDef.name

/-- `CREATE INDEX IF NOT EXISTS`: a no-op when an index of that name
exists, otherwise adds the index. -/
def createIndexIfNotExists (db : DbState) (ix : IndexDef) : DbState :=
  if ix.name ∈ indexNames db then db
  else { db with indexes := db.indexes ++ [ix] }

/-- `Database::init_schema`: the three DDL statements of `database.rs`,
in source order. -/
def init_schema (db : DbState) : DbState :=
  createIndexIfNotExists
    (createTableIfNotExists (createTableIfNotExists db packagesTable)
      dependenciesTable)
    idxPackageName

/-- The state of a freshly opened, empty database file. -/
def emptyDb : DbState :=
  ⟨[], []⟩

/-- Whether a cell satisfies one column's NOT NULL and UNIQUE constraints
against the existing rows (`j` is the column position).  As in SQLite,
NULL cells never collide under UNIQUE. -/
def cellOk (c : ColumnDef) (rows : List Row) (j : Nat)
    (cell : Option SqlValue) : Bool :=
  (if c.notNull then
      match cell with
      | some SqlValue.null => false
      | none => false
      | some _ => true
    else true) &&
  (if c.unique then
      match cell with
      | some SqlValue.null => true
      | none => true
      | some v => !(rows.any (fun r2 => r2.get? j == some v))
    else true)

/-- Whether a row may be inserted into a table holding `rows`: right
arity, and every cell passes its column's constraints. -/
def rowOk (t : TableDef) (rows : List Row) (r : Row) : Bool :=
  r.length == t.columns.length &&
  (List.range t.columns.length).all (fun j =>
    match t.columns.get? j with
    | some c => cellOk c rows j (r.get? j)
    | none => true)

/-- Insert a row into the named table of a table list, enforcing the
constraints; `none` models the constraint-violation error. -/
def insertTables :
    List (TableDef × List Row) → String → Row →
      Option (List (TableDef × List Row))
  | [], _, _ => none
  | (t, rows) :: rest, tname, r =>
    if t.name == tname then
      if rowOk t rows r then some ((t, rows ++ [r]) :: rest) else none
    else
      (insertTables rest tname r).map (fun l => (t, rows) :: l)

/-- `INSERT INTO tname VALUES r` on a database state. -/
def insertRow (db : DbState) (tname : String) (r : Row) : Option DbState :=
  (insertTables db.tables tname r).map (fun l => ⟨l, db.indexes⟩)

/-- The database states reachable from `s` by constraint-respecting row
insertions. -/
inductive Reachable : DbState → DbState → Prop
  | refl (s : DbState) : Reachable s s
  | step {s s2 s3 : DbState} (tname : String) (r : Row) :
      Reachable s s2 → insertRow s2 tname r = some s3 → Reachable s s3

/-- The SQLite UNIQUE relation between two rows at column position `j`:
a non-null value of the first row at `j` never reappears in the second
row at `j`. -/
def UniqAt (j : Nat) (r1 r2 : Row) : Prop :=
  ∀ v : SqlValue, v ≠ .null → r1.get? j = some v → r2.get? j ≠ some v

/-- The constraint invariant of one table: every NOT NULL column holds a
non-null value in every row, and the rows are pairwise distinct at every
UNIQUE column (SQLite-style, NULLs exempt). -/
def TableInv (t : TableDef) (rows : List Row) : Prop :=
  (∀ j c, t.columns.get? j = some c → c.notNull = true →
    ∀ r ∈ rows, ∃ v, r.get? j = some v ∧ v ≠ SqlValue.null) ∧
  (∀ j c, t.columns.get? j = some c → c.unique = true →
    rows.Pairwise (UniqAt j))

/-- The constraint invariant of a whole database state. -/
def DbInv (db : DbState) : Prop :=
  ∀ te ∈ db.tables, TableInv te.1 te.2

/-- A row for package `vim`. -/
def rowVim : Row :=
  [.i 1, .s "vim", .s "9.0.1", .null, .i 0]

/-- A row for package `curl`. -/
def rowCurl : Row :=
  [.i 2, .s "curl", .s "8.5.0", .null, .i 1]

/-- The freshly initialised database after inserting `vim` and `curl`. -/
def dbDemo : DbState :=
  ⟨[(packagesTable, [rowVim, rowCurl]), (dependenciesTable, [])],
   [idxPackageName]⟩

/-- A database that already holds a `packages` table with one row, used
to observe that `init_schema` leaves existing tables untouched. -/
def dbPre : DbState :=
  ⟨[(packagesTable, [rowVim])], []⟩

/-! ## Spec-modelled Transaction Planner & Executor (spec sections 3, 4.4)

The repository implements no transaction machinery — commands delegate to
the `apk` binary — so the Executor of spec section 4.4 is modelled from
the spec: the ordered steps run one at a time against the Metadata Store,
each applied step records an undo record, and the first failing step
aborts the transaction, reverses the already-applied steps in reverse
order and surfaces the failing step index. -/

/-- Modelled from the spec: one Metadata Store row — an installed
package's name, installed version and explicit flag (spec section 3,
"InstalledPackage"). -/
structure StoreRow where
  name : String
  version : String
  explicitFlag : Bool
deriving DecidableEq, Repr

/-- Modelled from the spec: the Metadata Store contents, one row per
installed package, in insertion order. -/
abbrev Store := List StoreRow

/-- Modelled from the spec: a transaction step — Install, Remove, or
Upgrade to a new version (spec section 3, "Transaction: ordered sequence
of Steps (Install, Remove, Upgrade{from,to})"). -/
inductive Step where
  | install (r : StoreRow)
  | remove (name : String)
  | upgrade (name : String) (toVer : String)
deriving DecidableEq, Repr

/-- An undo record for one applied step: delete the row at an index,
re-insert a row at an index, or write back an overwritten row. -/
inductive UndoRec where
  | del (i : Nat)
  | ins (i : Nat) (r : StoreRow)
  | put (i : Nat) (r : StoreRow)
deriving DecidableEq, Repr

/-- Position and content of the row named `n` in the store, if any. -/
def lookupRow : Store → String → Option (Nat × StoreRow)
  | [], _ => none
  | r :: rs, n =>
    if r.name = n then some (0, r)
    else (lookupRow rs n).map (fun p => (p.1 + 1, p.2))

/-- Modelled from the spec: apply one step to the store; `none` is a
step failure (installing an existing name is a Conflict, removing or
upgrading a missing name is NotInstalled).  A successful application
also returns the undo record that reverses it. -/
def applyStep (s : Store) : Step → Option (Store × UndoRec)
  | .install r =>
    match lookupRow s r.name with
    | some _ => none
    | none => some (s ++ [r], .del s.length)
  | .remove n =>
    match lookupRow s n with
    | none => none
    | some (i, r) => some (s.eraseIdx i, .ins i r)
  | .upgrade n toVer =>
    match lookupRow s n with
    | none => none
    | some (i, r) => some (s.set i { r with version := toVer }, .put i r)

/-- Reverse one undo record. -/
def undoOne (s : Store) : UndoRec → Store
  | .del i => s.eraseIdx i
  | .ins i r => s.insertIdx i r
  | .put i r => s.set i r

/-- Result of a transaction: every step committed, or rolled back after
a failure at the given step index. -/
inductive TxResult where
  | committed (s : Store)
  | rolledBack (failedStep : Nat) (s : Store)
deriving DecidableEq, Repr

/-- Modelled from the spec (section 4.4): execute the steps in order
with the undo log of applied steps (most recent first); the first
failing step aborts, reverses the applied steps in reverse order and
reports the failing index. -/
def execGo (s : Store) (undos : List UndoRec) (k : Nat) :
    List Step → TxResult
  | [] => .committed s
  | st :: rest =>
    match applyStep s st with
    | some (s2, u) => execGo s2 (u :: undos) (k + 1) rest
    | none => .rolledBack k (undos.foldl undoOne s)

/-- Run a whole transaction against the store. -/
def runTransaction (s : Store) (steps : List Step) : TxResult :=
  execGo s [] 0 steps

/-! ## Spec-modelled Dependency Resolver (spec section 4.3)

The repository implements no resolver, so it is modelled from the spec:
worklist constraint propagation over a Repository Index snapshot, with
the spec's tie-break policy (prefer the already-installed version when it
still satisfies the constraint, otherwise the highest satisfying
candidate).  A fuel bound computed from the inputs makes the propagation
terminate; exhausting it means the worklist revisited names cyclically. -/

/-- Modelled from the spec: versions are comparable and totally ordered
(semantic-version order); the model uses naturals. -/
abbrev Version := Nat

/-- Modelled from the spec: a version-range predicate with optional
inclusive bounds. -/
structure VRange where
  lo : Option Version
  hi : Option Version
deriving DecidableEq, Repr

/-- Whether a version satisfies a range. -/
def VRange.sat (vr : VRange) (v : Version) : Bool :=
  (match vr.lo with
   | none => true
   | some a => Nat.ble a v) &&
  (match vr.hi with
   | none => true
   | some b => Nat.ble v b)

/-- Modelled from the spec: one published package of the Repository
Index — name, version, and dependency constraints (name + range). -/
structure RepoPackage where
  name : String
  version : Version
  deps : List (String × VRange)
deriving DecidableEq, Repr

/-- Modelled from the spec: the Repository Index snapshot. -/
abbrev Index := List RepoPackage

/-- Modelled from the spec: one installed package of the current
installed-state snapshot. -/
structure InstalledPkg where
  name : String
  version : Version
deriving DecidableEq, Repr

/-- Modelled from the spec: the installed-state snapshot. -/
abbrev InstalledState := List InstalledPkg

/-- Modelled from the spec: the resolver's failure report. -/
inductive ResolveError where
  | packageNotFound (name : String)
  | unsatisfiableConstraints (name : String)
  | cyclicDependency (name : String)
deriving DecidableEq, Repr

/-- Candidate versions of `n` in the index that satisfy `vr`. -/
def candidates (idx : Index) (n : String) (vr : VRange) : List Version :=
  ((idx.filter (fun p => p.name == n)).map RepoPackage.version).filter
    (fun v => vr.sat v)

/-- The highest of a list of versions, if any (spec tie-break: prefer
the highest satisfying version). -/
def maxVersion : List Version → Option Version
  | [] => none
  | v :: vs =>
    match maxVersion vs with
    | none => some v
    | some w => some (max v w)

/-- Modelled from the spec: the version selected for one name under one
range — the installed version when it still satisfies the range
(minimise churn), otherwise the highest satisfying index candidate. -/
def pickVersion (s : InstalledState) (idx : Index) (n : String)
    (vr : VRange) : Option Version :=
  match s.find? (fun ip => ip.name == n) with
  | some ip =>
    if vr.sat ip.version then some ip.version
    else maxVersion (candidates idx n vr)
  | none => maxVersion (candidates idx n vr)

/-- The declared dependency constraints of package `n` at version `v`. -/
def depsOf (idx : Index) (n : String) (v : Version) :
    List (String × VRange) :=
  match idx.find? (fun p => p.name == n && p.version == v) with
  | some p => p.deps
  | none => []

/-- Modelled from the spec: worklist constraint propagation.  `acc` is
the partial resolution target; each worklist constraint is checked
against the existing assignment or resolved via `pickVersion`, and the
chosen version's own constraints are pushed onto the worklist. -/
def resolveGo (idx : Index) (s : InstalledState) :
    Nat → List (String × Version) → List (String × VRange) →
      Except ResolveError (List (String × Version))
  | 0, acc, work =>
    match work with
    | [] => .ok acc
    | (n, _) :: _ => .error (.cyclicDependency n)
  | fuel + 1, acc, work =>
    match work with
    | [] => .ok acc
    | (n, vr) :: rest =>
      match acc.find? (fun a => a.1 == n) with
      | some (_, v) =>
        if vr.sat v then resolveGo idx s fuel acc rest
        else .error (.unsatisfiableConstraints n)
      | none =>
        match pickVersion s idx n vr with
        | none =>
          if (idx.filter (fun p => p.name == n)).isEmpty then
            .error (.packageNotFound n)
          else .error (.unsatisfiableConstraints n)
        | some v =>
          resolveGo idx s fuel ((n, v) :: acc) (depsOf idx n v ++ rest)

/-- Modelled from the spec (section 4.3): resolve the requested
constraints against the installed state `s` and the Repository Index
snapshot `idx`.  The fuel bound is a function of the inputs alone. -/
def resolve (s : InstalledState) (requested : List (String × VRange))
    (idx : Index) : Except ResolveError (List (String × Version)) :=
  resolveGo idx s
    ((idx.length + 1) *
      (requested.length + idx.foldl (fun a p => a + p.deps.length) 0 + 1))
    [] requested

/-- A demo Repository Index: `A@1` depends on `B` in range [1, 2];
`B` is published at versions 1 and 2. -/
def idxDemo : Index :=
  [⟨"A", 1, [("B", ⟨some 1, some 2⟩)]⟩, ⟨"B", 1, []⟩, ⟨"B", 2, []⟩]

/-- A demo installed state: `B@1` is installed. -/
def sDemo : InstalledState :=
  [⟨"B", 1⟩]

/-- A demo request: install `A` at version ≥ 1. -/
def reqDemo : List (String × VRange) :=
  [("A", ⟨some 1, none⟩)]

end Isn

/-! ## Theorems for claims C5 and C6 -/

namespace Isn

/-- C5, counterexample: the claim says each dependency entry of the
`Package` type records both the depended-on name and a version range.  It
is false: a dependency entry is a bare `String`, so two spec-level
constraints on package `b` with different version ranges (here `>= 1.0`
versus `>= 2.0`) become the identical entry. -/
theorem package_dep_entry_loses_version_range :
    depToSource ⟨"b", ⟨some "1.0", none⟩⟩ =
      depToSource ⟨"b", ⟨some "2.0", none⟩⟩ ∧
    (⟨"b", ⟨some "1.0", none⟩⟩ : DependencyConstraint) ≠
      ⟨"b", ⟨some "2.0", none⟩⟩ := by
  exact ⟨rfl, by decide⟩

/-- C5, amended: every `Package` value carries name, version, description,
size and checksum, and a list of dependency entries each of which is a
bare package name: flattening spec-level constraints into a `Package`
keeps exactly the names, and two constraints flatten to the same entry
exactly when their names agree, whatever their version ranges. -/
theorem package_dependencies_are_bare_names
    (n v d : String) (deps : List DependencyConstraint) (sz : Nat)
    (ck : String) :
    (packageOfSpecDeps n v d deps sz ck).dependencies =
      deps.map (fun c => c.name) ∧
    ∀ c1 c2 : DependencyConstraint,
      (depToSource c1 = depToSource c2 ↔ c1.name = c2.name) := by
  exact ⟨rfl, fun c1 c2 => Iff.rfl⟩

/-- C1, counterexample: the claim says no CLI-exposed operation ever
terminates the process itself.  It is false: `install` run without root
privileges calls `std::process::exit(1)` (and spawns no backend command)
instead of returning a `Result`. -/
theorem install_nonroot_exits_process :
    runOp envNonRoot (.install "vim" false) =
      ⟨Outcome.exited 1, []⟩ := by
  rfl

/-- C1, amended: every CLI-exposed operation either returns `Ok`, or
terminates the process with exit code 1 (on a failed root check or a
backend command reporting failure), or returns an `IoError` when the
backend process could not be spawned; these are the only outcomes, and
the only structured error the commands ever return is `IoError`. -/
theorem runOp_outcome_shape (env : Env) (op : Op) :
    (runOp env op).outcome = Outcome.ok ∨
    (runOp env op).outcome = Outcome.exited 1 ∨
    ∃ e, (runOp env op).outcome = Outcome.err (IsnError.ioError e) := by
  cases op <;>
    simp only [runOp, Commands.install, Commands.remove, Commands.update,
      Commands.upgrade, Commands.search, Commands.info, Commands.list,
      Commands.verify, Commands.security_update] <;>
    (repeat' split) <;>
    first
      | exact Or.inl rfl
      | exact Or.inr (Or.inl rfl)
      | exact Or.inr (Or.inr ⟨_, rfl⟩)

/-- C3: every mutating operation (install, remove, update, upgrade,
security_update) is gated on the inline root check: with a non-zero
effective uid it attempts no backend command and terminates via
`exit(1)`, and whenever it did attempt a backend command the effective
uid was 0. -/
theorem mutating_ops_root_gate (env : Env) (op : Op)
    (hm : op.isMutating = true) :
    (env.euid ≠ 0 →
      (runOp env op).cmds = [] ∧
      (runOp env op).outcome = Outcome.exited 1) ∧
    ((runOp env op).cmds ≠ [] → env.euid = 0) := by
  cases op <;> simp only [Op.isMutating] at hm
  all_goals
    by_cases h : env.euid = 0 <;>
      simp only [runOp, Commands.install, Commands.remove,
        Commands.update, Commands.upgrade, Commands.security_update,
        Commands.is_root, h] <;>
      (repeat' split) <;> simp_all

/-- C3, witness: at the concrete non-root environment, `install` is
mutating, attempts no backend command and exits with code 1. -/
theorem mutating_ops_root_gate_witness :
    Op.isMutating (.install "vim" false) = true ∧
    ((envNonRoot.euid ≠ 0 →
        (runOp envNonRoot (.install "vim" false)).cmds = [] ∧
        (runOp envNonRoot (.install "vim" false)).outcome =
          Outcome.exited 1) ∧
     ((runOp envNonRoot (.install "vim" false)).cmds ≠ [] →
        envNonRoot.euid = 0)) :=
  ⟨rfl, mutating_ops_root_gate envNonRoot (.install "vim" false) rfl⟩

/-- C10: the read-only operations (search, info, list, verify) never
consult the effective uid — their whole result is unchanged under any
change of euid — and they always attempt a backend invocation. -/
theorem readonly_ops_ignore_euid (env : Env) (op : Op)
    (hr : op.isMutating = false) (a b : Nat) :
    runOp { env with euid := a } op = runOp { env with euid := b } op ∧
    (runOp env op).cmds ≠ [] := by
  cases op <;> simp only [Op.isMutating] at hr
  case install p y => exact nomatch hr
  case remove p y => exact nomatch hr
  case update => exact nomatch hr
  case upgrade y => exact nomatch hr
  case securityUpdate y => exact nomatch hr
  all_goals
    refine ⟨rfl, ?_⟩
  all_goals
    simp only [runOp, Commands.search, Commands.info, Commands.list,
      Commands.verify]
  all_goals
    (repeat' split) <;> simp

/-- C10, witness: `search` is read-only, gives the same result at euid 0
and euid 7, and attempts a backend command in the concrete non-root
environment. -/
theorem readonly_ops_ignore_euid_witness :
    Op.isMutating (.search "vim") = false ∧
    (runOp { envNonRoot with euid := 0 } (.search "vim") =
       runOp { envNonRoot with euid := 7 } (.search "vim") ∧
     (runOp envNonRoot (.search "vim")).cmds ≠ []) :=
  ⟨rfl, readonly_ops_ignore_euid envNonRoot (.search "vim") rfl 0 7⟩

/-- C7 (code bug): `list --explicit` behaves identically to plain `list`:
both run `apk list --installed` and print every installed package — at
the failing input, the non-explicitly-installed package is printed even
with the explicit filter — the flag only changes the header message,
contradicting the flag's own documentation ("Show only explicitly
installed packages"). -/
theorem list_ignores_explicit_flag :
    Commands.list envDepInstalled true = Commands.list envDepInstalled false ∧
    (Commands.list envDepInstalled true).cmds = [["list", "--installed"]] ∧
    Commands.listPassthrough envDepInstalled true =
      Commands.listPassthrough envDepInstalled false ∧
    Commands.listPassthrough envDepInstalled true =
      ["bash-5.2.26-r0 x86_64 [installed]"] ∧
    Commands.listHeader true ≠ Commands.listHeader false := by
  refine ⟨rfl, by rfl, rfl, by rfl, by decide⟩

/-- C6, counterexample: the claim says `UnsatisfiableConstraints` and
`CyclicDependency` each correspond to a distinct variant of the error
enum.  It is false: the source enum's only dependency-related variant is
`DependencyError`, so both taxonomy members are represented by the same
variant although they are different taxonomy members. -/
theorem taxonomy_members_share_variant :
    representTaxonomy .unsatisfiableConstraints =
      representTaxonomy .cyclicDependency ∧
    SpecErrorKind.unsatisfiableConstraints ≠ .cyclicDependency := by
  exact ⟨rfl, by decide⟩

/-- C6, amended: the error enum distinguishes `NotFound`,
`Conflict/AlreadyInstalled`, `NotInstalled`, `VerificationFailure`,
`FetchFailure` (as `NetworkError`) and `StoreIoFailure` (as
`DatabaseError`) as pairwise-distinct variants, but it represents both
`UnsatisfiableConstraints` and `CyclicDependency` by the single
`DependencyError` variant and has no dedicated `TransactionFailed`
variant (only the catch-all `Other`). -/
theorem taxonomy_partially_distinguished :
    ([SpecErrorKind.notFound, .conflictAlreadyInstalled, .notInstalled,
        .verificationFailure, .fetchFailure,
        .storeIoFailure].Pairwise
      (fun a b => representTaxonomy a ≠ representTaxonomy b)) ∧
    representTaxonomy .unsatisfiableConstraints = .dependencyError ∧
    representTaxonomy .cyclicDependency = .dependencyError ∧
    representTaxonomy .transactionFailed = .other := by
  refine ⟨?_, rfl, rfl, rfl⟩
  decide

/-! ### Schema lemmas (claims C4 and C9) -/

theorem rowOk_cellOk {t : TableDef} {rows : List Row} {r : Row}
    (h : rowOk t rows r = true) :
    ∀ j c, t.columns.get? j = some c → cellOk c rows j (r.get? j) = true := by
  intro j c hc
  have hj : j < t.columns.length := by
    rcases List.get?_eq_some.mp hc with ⟨hlt, _⟩
    exact hlt
  unfold rowOk at h
  rw [Bool.and_eq_true] at h
  have h3 := List.all_eq_true.mp h.2 j (List.mem_range.mpr hj)
  rw [hc] at h3
  exact h3

theorem cellOk_notNull {c : ColumnDef} {rows : List Row} {j : Nat}
    {cell : Option SqlValue} (h : cellOk c rows j cell = true)
    (hn : c.notNull = true) :
    ∃ v, cell = some v ∧ v ≠ SqlValue.null := by
  unfold cellOk at h
  rw [Bool.and_eq_true] at h
  have h1 := h.1
  rw [hn] at h1
  simp only [if_true] at h1
  cases cell with
  | none => simp at h1
  | some v =>
    cases v with
    | null => simp at h1
    | s a => exact ⟨_, rfl, fun hx => nomatch hx⟩
    | i a => exact ⟨_, rfl, fun hx => nomatch hx⟩

theorem cellOk_unique {c : ColumnDef} {rows : List Row} {j : Nat}
    {v : SqlValue} (h : cellOk c rows j (some v) = true)
    (hu : c.unique = true) (hnn : v ≠ SqlValue.null) :
    ∀ r2 ∈ rows, r2.get? j ≠ some v := by
  unfold cellOk at h
  rw [Bool.and_eq_true] at h
  have h2 := h.2
  rw [hu] at h2
  simp only [if_true] at h2
  cases v with
  | null => exact absurd rfl hnn
  | s a =>
    simp only [Bool.not_eq_true', List.any_eq_false, beq_iff_eq] at h2
    exact fun r2 hr2 => h2 r2 hr2
  | i a =>
    simp only [Bool.not_eq_true', List.any_eq_false, beq_iff_eq] at h2
    exact fun r2 hr2 => h2 r2 hr2

theorem tableInv_insert {t : TableDef} {rows : List Row} {r : Row}
    (hok : rowOk t rows r = true) (hinv : TableInv t rows) :
    TableInv t (rows ++ [r]) := by
  obtain ⟨hnn, huq⟩ := hinv
  constructor
  · intro j c hc hnot r2 hr2
    rcases List.mem_append.mp hr2 with hin | hin
    · exact hnn j c hc hnot r2 hin
    · have he : r2 = r := by simpa using hin
      subst he
      exact cellOk_notNull (rowOk_cellOk hok j c hc) hnot
  · intro j c hc hun
    refine List.pairwise_append.mpr
      ⟨huq j c hc hun, List.pairwise_singleton _ _, ?_⟩
    intro a ha b hb
    have hb2 : b = r := by simpa using hb
    subst hb2
    intro v hv hav hrv
    have hco := rowOk_cellOk hok j c hc
    rw [hrv] at hco
    exact cellOk_unique hco hun hv a ha hav

theorem insertTables_inv :
    ∀ (ts : List (TableDef × List Row)) (tname : String) (r : Row)
      (ts2 : List (TableDef × List Row)),
      insertTables ts tname r = some ts2 →
      (∀ te ∈ ts, TableInv te.1 te.2) →
      ∀ te ∈ ts2, TableInv te.1 te.2 := by
  intro ts
  induction ts with
  | nil =>
    intro tname r ts2 h
    simp [insertTables] at h
  | cons hd tl ih =>
    intro tname r ts2 h hinv
    obtain ⟨t, rows⟩ := hd
    rw [insertTables] at h
    split at h
    · split at h
      · rcases Option.some.inj h with rfl
        intro te hte
        rcases List.mem_cons.mp hte with rfl | htl
        · exact tableInv_insert (by assumption)
            (hinv (t, rows) (List.mem_cons_self _ _))
        · exact hinv te (List.mem_cons_of_mem _ htl)
      · exact absurd h (by simp)
    · rcases Option.map_eq_some'.mp h with ⟨l, hl, rfl⟩
      intro te hte
      rcases List.mem_cons.mp hte with rfl | htl
      · exact hinv _ (List.mem_cons_self _ _)
      · exact ih tname r l hl
          (fun te2 h2 => hinv te2 (List.mem_cons_of_mem _ h2)) te htl

theorem reachable_inv {s0 s : DbState} (h : Reachable s0 s)
    (hinv : DbInv s0) : DbInv s := by
  induction h with
  | refl => exact hinv
  | step tname r hre heq ih =>
    simp only [insertRow] at heq
    rcases Option.map_eq_some'.mp heq with ⟨l, hl, hs3⟩
    subst hs3
    intro te hte
    exact insertTables_inv _ tname r l hl ih te hte

theorem dbInv_init : DbInv (init_schema emptyDb) := by
  intro te hte
  have h : (init_schema emptyDb).tables =
      [(packagesTable, []), (dependenciesTable, [])] := rfl
  rw [h] at hte
  rcases List.mem_cons.mp hte with rfl | hte2
  · exact ⟨fun j c _ _ r hr => absurd hr (List.not_mem_nil r),
      fun j c _ _ => List.Pairwise.nil⟩
  · rcases List.mem_cons.mp hte2 with rfl | hte3
    · exact ⟨fun j c _ _ r hr => absurd hr (List.not_mem_nil r),
        fun j c _ _ => List.Pairwise.nil⟩
    · exact absurd hte3 (List.not_mem_nil te)

/-- C4: on a fresh database, `init_schema` creates exactly the persisted
contract: a `packages` table whose columns are `id` (primary key), `name`
(NOT NULL, UNIQUE), `version` (NOT NULL), `description`, `installed_at`;
a `dependencies` table with `package_id` (foreign key to `packages.id`)
and `depends_on`; and the index `idx_package_name` on `packages(name)`.
Moreover in every state reachable from the initialised database by
constraint-respecting insertions, no two rows of `packages` agree at the
`name` column (position 1). -/
theorem init_schema_contract (s : DbState)
    (hs : Reachable (init_schema emptyDb) s) :
    (init_schema emptyDb).tables =
      [({ name := "packages",
          columns :=
            [⟨"id", true, false, false⟩, ⟨"name", false, true, true⟩,
             ⟨"version", false, true, false⟩,
             ⟨"description", false, false, false⟩,
             ⟨"installed_at", false, false, false⟩],
          foreignKeys := [] }, []),
       ({ name := "dependencies",
          columns :=
            [⟨"package_id", false, false, false⟩,
             ⟨"depends_on", false, false, false⟩],
          foreignKeys := [⟨"package_id", "packages", "id"⟩] }, [])] ∧
    (init_schema emptyDb).indexes =
      [⟨"idx_package_name", "packages", "name"⟩] ∧
    ∀ rows, (packagesTable, rows) ∈ s.tables →
      rows.Pairwise (fun r1 r2 => r1.get? 1 ≠ r2.get? 1) := by
  refine ⟨rfl, rfl, ?_⟩
  intro rows hmem
  have hinv := reachable_inv hs dbInv_init
  obtain ⟨hnn, huq⟩ := hinv (packagesTable, rows) hmem
  have hcol : packagesTable.columns.get? 1 =
      some ⟨"name", false, true, true⟩ := rfl
  have hp := huq 1 _ hcol rfl
  have hn := hnn 1 _ hcol rfl
  exact List.Pairwise.imp_of_mem
    (fun {a b} ha hb hab => by
      rcases hn a ha with ⟨v, hav, hv⟩
      intro he
      exact hab v hv hav (by rw [← he]; exact hav)) hp

/-- C4, witness: the initialised database with `vim` then `curl`
inserted is reachable, and its `packages` rows are pairwise distinct at
the `name` column. -/
theorem init_schema_contract_witness :
    Reachable (init_schema emptyDb) dbDemo ∧
    ∀ rows, (packagesTable, rows) ∈ dbDemo.tables →
      rows.Pairwise (fun r1 r2 => r1.get? 1 ≠ r2.get? 1) :=
  have hr : Reachable (init_schema emptyDb) dbDemo :=
    Reachable.step "packages" rowCurl
      (Reachable.step "packages" rowVim (Reachable.refl _) (by rfl))
      (by rfl)
  ⟨hr, (init_schema_contract dbDemo hr).2.2⟩

theorem tables_createIndexIfNotExists (db : DbState) (ix : IndexDef) :
    (createIndexIfNotExists db ix).tables = db.tables := by
  unfold createIndexIfNotExists
  split <;> rfl

theorem indexes_createTableIfNotExists (db : DbState) (t : TableDef) :
    (createTableIfNotExists db t).indexes = db.indexes := by
  unfold createTableIfNotExists
  split <;> rfl

theorem tableNames_createIndexIfNotExists (db : DbState) (ix : IndexDef) :
    tableNames (createIndexIfNotExists db ix) = tableNames db := by
  unfold tableNames
  rw [tables_createIndexIfNotExists]

theorem mem_tableNames_self (db : DbState) (t : TableDef) :
    t.name ∈ tableNames (createTableIfNotExists db t) := by
  unfold createTableIfNotExists
  split
  · assumption
  · simp [tableNames]

theorem mem_tableNames_mono {db : DbState} {n : String} (t : TableDef)
    (h : n ∈ tableNames db) :
    n ∈ tableNames (createTableIfNotExists db t) := by
  unfold createTableIfNotExists
  split
  · exact h
  · simp only [tableNames, List.map_append, List.mem_append]
    exact Or.inl h

theorem createTable_noop {db : DbState} {t : TableDef}
    (h : t.name ∈ tableNames db) : createTableIfNotExists db t = db := by
  unfold createTableIfNotExists
  rw [if_pos h]

theorem mem_indexNames_self (db : DbState) (ix : IndexDef) :
    ix.name ∈ indexNames (createIndexIfNotExists db ix) := by
  unfold createIndexIfNotExists
  split
  · assumption
  · simp [indexNames]

theorem createIndex_noop {db : DbState} {ix : IndexDef}
    (h : ix.name ∈ indexNames db) : createIndexIfNotExists db ix = db := by
  unfold createIndexIfNotExists
  rw [if_pos h]

theorem mem_tables_mono {db : DbState} {te : TableDef × List Row}
    (t : TableDef) (h : te ∈ db.tables) :
    te ∈ (createTableIfNotExists db t).tables := by
  unfold createTableIfNotExists
  split
  · exact h
  · exact List.mem_append_left _ h

theorem mem_indexes_mono {db : DbState} {ix : IndexDef} (ix2 : IndexDef)
    (h : ix ∈ db.indexes) :
    ix ∈ (createIndexIfNotExists db ix2).indexes := by
  unfold createIndexIfNotExists
  split
  · exact h
  · exact List.mem_append_left _ h

theorem init_schema_fixed (d : DbState)
    (hP : packagesTable.name ∈ tableNames d)
    (hD : dependenciesTable.name ∈ tableNames d)
    (hI : idxPackageName.name ∈ indexNames d) :
    init_schema d = d := by
  unfold init_schema
  rw [createTable_noop hP, createTable_noop hD, createIndex_noop hI]

/-- C9: `init_schema` is idempotent (all three DDL statements use
IF NOT EXISTS): running it twice equals running it once, and it never
disturbs what is already there — every existing table entry, rows
included, and every existing index survive unchanged.  In the model it
is a total function: it succeeds on every state. -/
theorem init_schema_idempotent (db : DbState) :
    init_schema (init_schema db) = init_schema db ∧
    (∀ te ∈ db.tables, te ∈ (init_schema db).tables) ∧
    (∀ ix ∈ db.indexes, ix ∈ (init_schema db).indexes) := by
  refine ⟨?_, ?_, ?_⟩
  · have hP : packagesTable.name ∈ tableNames (init_schema db) := by
      unfold init_schema
      rw [tableNames_createIndexIfNotExists]
      exact mem_tableNames_mono _ (mem_tableNames_self db packagesTable)
    have hD : dependenciesTable.name ∈ tableNames (init_schema db) := by
      unfold init_schema
      rw [tableNames_createIndexIfNotExists]
      exact mem_tableNames_self _ dependenciesTable
    have hI : idxPackageName.name ∈ indexNames (init_schema db) := by
      unfold init_schema
      exact mem_indexNames_self _ idxPackageName
    exact init_schema_fixed _ hP hD hI
  · intro te hte
    unfold init_schema
    rw [tables_createIndexIfNotExists]
    exact mem_tables_mono _ (mem_tables_mono _ hte)
  · intro ix hix
    unfold init_schema
    apply mem_indexes_mono
    rw [indexes_createTableIfNotExists, indexes_createTableIfNotExists]
    exact hix

/-- C9, witness: on a database that already holds a `packages` table
with one row, `init_schema` twice equals `init_schema` once, and the
existing table entry with its row survives. -/
theorem init_schema_idempotent_witness :
    init_schema (init_schema dbPre) = init_schema dbPre ∧
    (packagesTable, [rowVim]) ∈ (init_schema dbPre).tables :=
  ⟨(init_schema_idempotent dbPre).1,
   (init_schema_idempotent dbPre).2.1 (packagesTable, [rowVim])
     (by simp [dbPre])⟩

/-! ### Transaction rollback lemmas (claim C2) -/

theorem eraseIdx_append_length (s : Store) (r : StoreRow) :
    (s ++ [r]).eraseIdx s.length = s := by
  induction s with
  | nil => rfl
  | cons x xs ih => simpa [List.eraseIdx] using ih

theorem lookup_erase_insert :
    ∀ (s : Store) (n : String) (i : Nat) (r : StoreRow),
      lookupRow s n = some (i, r) → (s.eraseIdx i).insertIdx i r = s := by
  intro s
  induction s with
  | nil => intro n i r h; simp [lookupRow] at h
  | cons x xs ih =>
    intro n i r h
    rw [lookupRow] at h
    split at h
    · rcases Option.some.inj h with ⟨rfl, rfl⟩
      rfl
    · rcases Option.map_eq_some'.mp h with ⟨⟨p1, p2⟩, hp, he⟩
      rcases Prod.mk.inj (he) with ⟨h1, h2⟩
      subst h1
      subst h2
      simpa [List.eraseIdx, List.insertIdx] using ih n p1 p2 hp

theorem lookup_set_set :
    ∀ (s : Store) (n : String) (i : Nat) (r : StoreRow),
      lookupRow s n = some (i, r) →
      ∀ r2, (s.set i r2).set i r = s := by
  intro s
  induction s with
  | nil => intro n i r h; simp [lookupRow] at h
  | cons x xs ih =>
    intro n i r h r2
    rw [lookupRow] at h
    split at h
    · rcases Option.some.inj h with ⟨rfl, rfl⟩
      rfl
    · rcases Option.map_eq_some'.mp h with ⟨⟨p1, p2⟩, hp, he⟩
      rcases Prod.mk.inj (he) with ⟨h1, h2⟩
      subst h1
      subst h2
      simpa [List.set] using ih n p1 p2 hp r2

theorem applyStep_undo {s : Store} {st : Step} {s2 : Store} {u : UndoRec}
    (h : applyStep s st = some (s2, u)) : undoOne s2 u = s := by
  cases st with
  | install r =>
    rw [applyStep] at h
    split at h
    · exact absurd h (by simp)
    · rcases Option.some.inj h with ⟨rfl, rfl⟩
      exact eraseIdx_append_length s r
  | remove n =>
    rw [applyStep] at h
    split at h
    · exact absurd h (by simp)
    · rename_i i r hl
      rcases Option.some.inj h with ⟨rfl, rfl⟩
      exact lookup_erase_insert s n i r hl
  | upgrade n toVer =>
    rw [applyStep] at h
    split at h
    · exact absurd h (by simp)
    · rename_i i r hl
      rcases Option.some.inj h with ⟨rfl, rfl⟩
      exact lookup_set_set s n i r hl _

theorem execGo_rolledBack {steps : List Step} :
    ∀ (s s0 : Store) (undos : List UndoRec) (k j : Nat) (s3 : Store),
      undos.foldl undoOne s = s0 →
      execGo s undos k steps = .rolledBack j s3 → s3 = s0 := by
  induction steps with
  | nil =>
    intro s s0 undos k j s3 hfold h
    simp [execGo] at h
  | cons st rest ih =>
    intro s s0 undos k j s3 hfold h
    rw [execGo] at h
    split at h
    · rename_i s2 u ha
      refine ih s2 s0 (u :: undos) (k + 1) j s3 ?_ h
      rw [List.foldl_cons, applyStep_undo ha]
      exact hfold
    · cases h
      exact hfold

/-- C2: a transaction that fails at any step index leaves the Metadata
Store identical to its pre-transaction state: the executor reverses the
applied steps in reverse order and this rollback is complete. -/
theorem transaction_rollback_restores_store (s0 : Store)
    (steps : List Step) (k : Nat) (s3 : Store)
    (h : runTransaction s0 steps = .rolledBack k s3) : s3 = s0 :=
  execGo_rolledBack s0 s0 [] 0 k s3 rfl h

/-- C2, witness: on a store holding `vim`, the transaction
[install curl, remove missing] fails at step 1, and the rolled-back
store is exactly the pre-transaction store. -/
theorem transaction_rollback_restores_store_witness :
    runTransaction [⟨"vim", "9.0.1", true⟩]
        [.install ⟨"curl", "8.5.0", false⟩, .remove "missing"] =
      .rolledBack 1 [⟨"vim", "9.0.1", true⟩] ∧
    ([⟨"vim", "9.0.1", true⟩] : Store) = [⟨"vim", "9.0.1", true⟩] :=
  ⟨by rfl,
   transaction_rollback_restores_store [⟨"vim", "9.0.1", true⟩]
     [.install ⟨"curl", "8.5.0", false⟩, .remove "missing"] 1
     [⟨"vim", "9.0.1", true⟩] (by rfl)⟩

/-! ### Resolver determinism (claim C8) -/

/-- Sanity check on the modelled resolver, following the example
scenario of spec section 8: requesting `A` against an index where `A@1`
needs `B` in [1, 2] and the store already has `B@1` reuses the installed
`B@1` rather than the newer `B@2`. -/
theorem resolve_demo_reuses_installed :
    resolve sDemo reqDemo idxDemo = .ok [("B", 1), ("A", 1)] := by
  rfl

/-- C8: dependency resolution is a deterministic function of the
installed-state snapshot, the request, and the Repository Index
snapshot: two runs on equal inputs return the identical resolution
target or the identical failure, with no dependence on any other
state — `resolve` takes no other input. -/
theorem resolve_deterministic (s1 s2 : InstalledState)
    (r1 r2 : List (String × VRange)) (idx1 idx2 : Index)
    (hs : s1 = s2) (hr : r1 = r2) (hi : idx1 = idx2) :
    resolve s1 r1 idx1 = resolve s2 r2 idx2 := by
  subst hs
  subst hr
  subst hi
  rfl

/-- C8, witness: two runs on the demo snapshot, request and index give
the identical result. -/
theorem resolve_deterministic_witness :
    sDemo = sDemo ∧ reqDemo = reqDemo ∧ idxDemo = idxDemo ∧
    resolve sDemo reqDemo idxDemo = resolve sDemo reqDemo idxDemo :=
  ⟨rfl, rfl, rfl,
   resolve_deterministic sDemo sDemo reqDemo reqDemo idxDemo idxDemo
     rfl rfl rfl⟩

end Isn
